import Mathlib

/-!
Verification of the Vinted buy/resell scanner core (vinted_app.py).

The scoring engine is embedded shallowly: Python floats are modelled as exact
rationals, except where the source applies the transcendental `math.log`, which
forces the real numbers; Python's `round(x, n)` (round-half-to-even on the
scaled value) is modelled by `rhe`/`roundTo`.  The wall clock read by
`datetime.now(timezone.utc)` inside `velocity_score` is passed as an explicit
`now` argument, and the ISO-8601 parse of `posted_at` is modelled by an
`Option ℚ`: `some dt` is a successfully parsed post instant (seconds), `none`
stands for an absent or unparsable timestamp (the source's `except` branch).
-/

namespace VintedBot

/-- Economic and weighting constants from the source's Config section.
The decimal literals of the source are exact rationals here. -/
def VINTED_FEES_PCT : ℚ := 0.10

def AVG_SHIPPING_COST : ℚ := 5.0

def DEFAULT_REFURB_COST : ℚ := 3.0

def MIN_PROFIT_DESIRABLE : ℚ := 5.0

def MAX_PROFIT_CONSIDERED : ℚ := 200.0

def WEIGHT_PROFIT : ℚ := 0.40

def WEIGHT_VELOCITY : ℚ := 0.55

def WEIGHT_RISK : ℚ := 0.15

def DEFAULT_CONCURRENCY : ℕ := 6

/-- Source `clamp(x, lo, hi) = max(lo, min(hi, x))`, generic over the ordered
carrier so it serves both the rational and the real fragments. -/
def clamp {α : Type} [LinearOrder α] (x lo hi : α) : α :=
  max lo (min hi x)

/-- Round-half-to-even to the nearest integer: the semantics of Python's
builtin `round` on the exact value. -/
def rhe {α : Type} [LinearOrderedField α] [FloorRing α] (x : α) : ℤ :=
  if x - (⌊x⌋ : α) < 1 / 2 then ⌊x⌋
  else if (1 / 2 : α) < x - (⌊x⌋ : α) then ⌊x⌋ + 1
  else if ⌊x⌋ % 2 = 0 then ⌊x⌋ else ⌊x⌋ + 1

/-- Python `round(x, d)`: round-half-to-even at `d` decimal digits. -/
def roundTo {α : Type} [LinearOrderedField α] [FloorRing α] (x : α) (d : ℕ) : α :=
  (rhe (x * 10 ^ d) : α) / 10 ^ d

/-- Source `median(nums)`: `None` on an empty list, otherwise the middle
element of the sorted list (odd length) or the mean of the two central
elements (even length).  Python's `sorted` is modelled by `insertionSort`;
the in-range indexing `s[k]` is modelled by `getD` with an irrelevant
default. -/
def median (nums : List ℚ) : Option ℚ :=
  if nums = [] then none
  else
    let s := nums.insertionSort (· ≤ ·)
    let n := s.length
    if n % 2 = 1 then some (s.getD (n / 2) 0)
    else some ((s.getD (n / 2 - 1) 0 + s.getD (n / 2) 0) / 2)

/-- Source `estimate_market_price(historical_prices)`. -/
def estimate_market_price (historical_prices : List ℚ) : Option ℚ :=
  median historical_prices

/-- Source `compute_net_profit`: `None` without a market estimate, otherwise
`round(gross - fees - shipping - refurb, 2)`.  The source's default arguments
are supplied explicitly by the callers below. -/
def compute_net_profit (asking_price : ℚ) (market_price_est : Option ℚ)
    (fees_pct shipping refurb : ℚ) : Option ℚ :=
  match market_price_est with
  | none => none
  | some m =>
    let gross := m - asking_price
    let fees := m * fees_pct
    let net := gross - fees - shipping - refurb
    some (roundTo net 2)

/-- Source `velocity_score`.  Returns `0.0` without a market estimate; with
one, combines the price, recency, social and brand factors and clamps to
`[0, 1]`.  `posted_at` is the parsed post instant (`none` when the timestamp
is absent or `datetime.fromisoformat` raised) and `now` the current instant,
both in seconds; the source computes `delta_hours` from their difference. -/
noncomputable def velocity_score (asking_price : ℚ) (market_price_est : Option ℚ)
    (posted_at : Option ℚ) (now : ℚ) (likes views : ℕ)
    (brand_popularity : ℚ) : ℝ :=
  match market_price_est with
  | none => 0
  | some m =>
    let price_ratio : ℚ := if 0 < m then asking_price / m else 1
    let price_factor : ℚ := clamp (1.5 - price_ratio) 0 1.5 / 1.5
    let recency_factor : ℚ :=
      match posted_at with
      | none => 0
      | some dt =>
        let delta_hours := max 0 ((now - dt) / 3600.0)
        clamp (1 - delta_hours / (24 * 7)) 0 1
    let social : ℝ := clamp (Real.log (1 + (likes : ℝ) + (views : ℝ) / 20.0) / 5.0) 0 1
    let brand : ℚ := clamp brand_popularity 0 1
    let score : ℝ := 0.5 * (price_factor : ℝ) + 0.3 * (recency_factor : ℝ)
      + 0.15 * social + 0.05 * (brand : ℝ)
    clamp score 0 1

/-- Source `risk_penalty`: additive increments, clamped to `[0, 1]`. -/
def risk_penalty (photo_quality : ℚ) (ambiguous_brand suspect_low_price : Bool) : ℚ :=
  let r0 : ℚ := 0
  let r1 := if photo_quality < 0.5 then r0 + 0.25 else r0
  let r2 := if ambiguous_brand then r1 + 0.35 else r1
  let r3 := if suspect_low_price then r2 + 0.25 else r2
  clamp r3 0 1

/-- The dictionary returned by the source's `final_score`. -/
structure FinalScore where
  score : ℝ
  profit_normalized : ℚ
  velocity : ℝ
  risk : ℚ
  net_profit : Option ℚ

/-- Source `final_score`: profit normalisation, weighted raw score clamped to
`[0, 1]`, percentage score rounded to two decimals, components rounded for
display.  The source's default `min_profit`/`max_profit` are supplied
explicitly by `score_listing`. -/
noncomputable def final_score (net_profit : Option ℚ) (velocity : ℝ) (risk : ℚ)
    (min_profit max_profit : ℚ) : FinalScore :=
  let profit_norm : ℚ :=
    match net_profit with
    | none => 0
    | some np => clamp ((np - min_profit) / (max_profit - min_profit)) 0 1
  let raw : ℝ := (WEIGHT_PROFIT : ℝ) * (profit_norm : ℝ)
    + (WEIGHT_VELOCITY : ℝ) * velocity - (WEIGHT_RISK : ℝ) * (risk : ℝ)
  let raw := clamp raw 0 1
  let score_pct : ℝ := roundTo (raw * 100) 2
  { score := score_pct
    profit_normalized := roundTo profit_norm 4
    velocity := roundTo velocity 4
    risk := roundTo risk 4
    net_profit := match net_profit with
      | none => none
      | some np => some (roundTo np 2) }

/-- A listing record as consumed by `score_listing`: the fields the source
reads out of the listing dict, with the dict's `.get` defaults applied at
construction.  `posted_at` is the parsed post instant (see `velocity_score`). -/
structure Listing where
  asking_price : ℚ
  market_price_est : Option ℚ
  historical_prices : List ℚ
  posted_at : Option ℚ
  likes : ℕ
  views : ℕ
  brand_popularity : ℚ
  photo_quality : ℚ
  ambiguous_brand : Bool
  suspect_low_price : Bool

/-- The dictionary returned by the source's `score_listing`, with the nested
`components` and `raw` sub-dicts flattened into fields. -/
structure ScoreResult where
  asking_price : ℚ
  market_price_est : Option ℚ
  net_profit : Option ℚ
  score : ℝ
  profit_normalized : ℚ
  velocity : ℝ
  risk : ℚ
  velocity_raw : ℝ
  risk_raw : ℚ
  net_profit_raw : Option ℚ

/-- Source `score_listing`: market estimation, net profit, velocity, risk and
final score over one listing.  `now` is the wall-clock instant that the
source's `velocity_score` reads via `datetime.now(timezone.utc)`. -/
noncomputable def score_listing (listing : Listing) (now : ℚ) : ScoreResult :=
  let asking := listing.asking_price
  let market_est : Option ℚ :=
    match listing.market_price_est with
    | some m => some m
    | none => estimate_market_price listing.historical_prices
  let netp := compute_net_profit asking market_est
    VINTED_FEES_PCT AVG_SHIPPING_COST DEFAULT_REFURB_COST
  let vel := velocity_score asking market_est listing.posted_at now
    listing.likes listing.views listing.brand_popularity
  let risk := risk_penalty listing.photo_quality
    listing.ambiguous_brand listing.suspect_low_price
  let F := final_score netp vel risk MIN_PROFIT_DESIRABLE MAX_PROFIT_CONSIDERED
  { asking_price := asking
    market_price_est := market_est
    net_profit := F.net_profit
    score := F.score
    profit_normalized := F.profit_normalized
    velocity := F.velocity
    risk := F.risk
    velocity_raw := vel
    risk_raw := risk
    net_profit_raw := netp }

/-- The price factor as the spec writes it: clamp(1.5 − asking/market, 0,
1.5)/1.5 with real-number division.  Stated separately from `velocity_score`
so the formula theorems compare the source computation against the spec's
formula. -/
noncomputable def price_factor_spec (a m : ℚ) : ℝ :=
  clamp (1.5 - (a : ℝ) / (m : ℝ)) 0 1.5 / 1.5

/-- The recency factor as the spec writes it: linear decay from 1 to 0 over
one week (168 hours) since the post instant, 0 when the timestamp is absent
or unparsable. -/
noncomputable def recency_factor_spec (p : Option ℚ) (now : ℚ) : ℝ :=
  match p with
  | none => 0
  | some dt => clamp (1 - max 0 (((now : ℝ) - (dt : ℝ)) / 3600) / (24 * 7)) 0 1

/-- The social factor as the spec writes it: clamp(ln(1 + likes + views/20)/5,
0, 1). -/
noncomputable def social_factor_spec (lk vw : ℕ) : ℝ :=
  clamp (Real.log (1 + (lk : ℝ) + (vw : ℝ) / 20) / 5) 0 1

/-- The brand factor as the spec writes it: clamp(brand_popularity, 0, 1). -/
noncomputable def brand_factor_spec (br : ℚ) : ℝ :=
  clamp (br : ℝ) 0 1

/-- A concrete listing used to instantiate the general theorems: asking price
15 against a market estimate of 10, posted at instant 0, no engagement and no
risk flags. -/
def sampleListing : Listing :=
  { asking_price := 15
    market_price_est := some 10
    historical_prices := []
    posted_at := some 0
    likes := 0
    views := 0
    brand_popularity := 0
    photo_quality := 1
    ambiguous_brand := false
    suspect_low_price := false }

/-- Outcome of one HTTP GET as seen by `CollectorAsync._fetch`: either a
response with a status code and a body, or a transport failure (connection
error, timeout) that the client library raises as an exception. -/
inductive FetchOutcome where
  | response (status_code : ℕ) (text : String)
  | transportError

/-- Modelled from the spec: the tail of `CollectorAsync._fetch` is missing
from the source excerpt (the file ends mid-way through the `else` branch at
line 189), so the non-200 branch and the exception handler follow the spec's
contract — any non-200 status or network/timeout error is converted to the
sentinel "unavailable" result `none`.  The 200 branch returning `r.text` is
from the source. -/
def fetchResult : FetchOutcome → Option String
  | .response status_code text => if status_code = 200 then some text else none
  | .transportError => none

/-- State of the fetch concurrency gate (`asyncio.Semaphore(concurrency)` in
`CollectorAsync`): the number of fetches currently holding a permit, i.e.
in flight inside the `async with self.sema` block of `_fetch`. -/
def SemState : Type := ℕ

/-- One transition of the concurrency gate: a fetch may enter its
`async with self.sema` block only while fewer than `cap` permits are taken
(counting-semaphore acquire), and a fetch holding a permit may leave the
block (release).  `cap` is the `concurrency` argument of `CollectorAsync`. -/
def semStep (cap : ℕ) (inflight inflight' : ℕ) : Prop :=
  (inflight < cap ∧ inflight' = inflight + 1) ∨
  (0 < inflight ∧ inflight' = inflight - 1)

/-- States of the concurrency gate reachable from the idle pool: the gate
starts with no fetch in flight, then evolves by acquire and release steps.
Any schedule of any number of submitted URLs produces such a trace. -/
inductive SemReachable (cap : ℕ) : ℕ → Prop where
  | init : SemReachable cap 0
  | step {n n' : ℕ} : SemReachable cap n → semStep cap n n' → SemReachable cap n'

section ClampLemmas

variable {α : Type} [LinearOrder α]

theorem le_clamp {x lo hi : α} : lo ≤ clamp x lo hi :=
  le_max_left _ _

theorem clamp_le {x lo hi : α} (h : lo ≤ hi) : clamp x lo hi ≤ hi :=
  max_le h (min_le_left _ _)

theorem clamp_mono {x y : α} (lo hi : α) (h : x ≤ y) :
    clamp x lo hi ≤ clamp y lo hi :=
  max_le_max le_rfl (min_le_min le_rfl h)

theorem clamp_eq_of_mem {x lo hi : α} (hlo : lo ≤ x) (hhi : x ≤ hi) :
    clamp x lo hi = x := by
  unfold clamp
  rw [min_eq_right hhi, max_eq_right hlo]

end ClampLemmas

section RoundLemmas

variable {α : Type} [LinearOrderedField α] [FloorRing α]

theorem floor_le_rhe (x : α) : ⌊x⌋ ≤ rhe x := by
  unfold rhe
  split
  · exact le_rfl
  · split
    · exact le_of_lt (lt_add_one _)
    · split
      · exact le_rfl
      · exact le_of_lt (lt_add_one _)

theorem rhe_le_floor_add_one (x : α) : rhe x ≤ ⌊x⌋ + 1 := by
  unfold rhe
  split
  · exact le_of_lt (lt_add_one _)
  · split
    · exact le_rfl
    · split
      · exact le_of_lt (lt_add_one _)
      · exact le_rfl

theorem rhe_mono {x y : α} (h : x ≤ y) : rhe x ≤ rhe y := by
  rcases lt_or_le ⌊x⌋ ⌊y⌋ with hf | hf
  · calc rhe x ≤ ⌊x⌋ + 1 := rhe_le_floor_add_one x
      _ ≤ ⌊y⌋ := hf
      _ ≤ rhe y := floor_le_rhe y
  · have hfe : ⌊x⌋ = ⌊y⌋ := le_antisymm (Int.floor_le_floor h) hf
    unfold rhe
    rw [hfe]
    split
    · exact floor_le_rhe y
    · rename_i hx1
      have h1 : ¬ y - (⌊y⌋ : α) < 1 / 2 := by
        push_neg at hx1 ⊢
        linarith
      rw [if_neg h1]
      split
      · rename_i hx2
        have h2 : (1 / 2 : α) < y - (⌊y⌋ : α) := by linarith
        rw [if_pos h2]
      · rename_i hx1b hx2
        rcases lt_or_le (1 / 2 : α) (y - (⌊y⌋ : α)) with h2 | h2
        · rw [if_pos h2]
          split
          · exact le_of_lt (lt_add_one _)
          · exact le_rfl
        · rw [if_neg (not_lt.mpr h2)]

theorem rhe_intCast (n : ℤ) : rhe (n : α) = n := by
  unfold rhe
  rw [Int.floor_intCast]
  rw [if_pos]
  rw [sub_self]
  norm_num

theorem roundTo_mono {x y : α} (d : ℕ) (h : x ≤ y) : roundTo x d ≤ roundTo y d := by
  unfold roundTo
  have hp : (0 : α) < 10 ^ d := by positivity
  have h1 : rhe (x * 10 ^ d) ≤ rhe (y * 10 ^ d) :=
    rhe_mono (mul_le_mul_of_nonneg_right h (le_of_lt hp))
  exact (div_le_div_iff_of_pos_right hp).mpr (by exact_mod_cast h1)

theorem roundTo_mem {x : α} {nlo nhi : ℤ} (d : ℕ)
    (hlo : (nlo : α) ≤ x) (hhi : x ≤ (nhi : α)) :
    (nlo : α) ≤ roundTo x d ∧ roundTo x d ≤ (nhi : α) := by
  have hp : (0 : α) < 10 ^ d := by positivity
  have hlo2 : roundTo ((nlo : α)) d ≤ roundTo x d := roundTo_mono d hlo
  have hhi2 : roundTo x d ≤ roundTo ((nhi : α)) d := roundTo_mono d hhi
  have hval : ∀ n : ℤ, roundTo ((n : α)) d = (n : α) := by
    intro n
    unfold roundTo
    have : ((n : α) * 10 ^ d) = ((n * 10 ^ d : ℤ) : α) := by push_cast; ring
    rw [this, rhe_intCast]
    push_cast
    field_simp
  rw [hval] at hlo2 hhi2
  exact ⟨hlo2, hhi2⟩

end RoundLemmas

section RoundCorollaries

variable {α : Type} [LinearOrderedField α] [FloorRing α]

theorem roundTo_mem_01 {x : α} (d : ℕ) (h0 : 0 ≤ x) (h1 : x ≤ 1) :
    0 ≤ roundTo x d ∧ roundTo x d ≤ 1 := by
  have h := @roundTo_mem α _ _ x 0 1 d (by exact_mod_cast h0) (by exact_mod_cast h1)
  constructor
  · exact_mod_cast h.1
  · exact_mod_cast h.2

theorem roundTo_mem_0100 {x : α} (d : ℕ) (h0 : 0 ≤ x) (h1 : x ≤ 100) :
    0 ≤ roundTo x d ∧ roundTo x d ≤ 100 := by
  have h := @roundTo_mem α _ _ x 0 100 d (by exact_mod_cast h0) (by exact_mod_cast h1)
  constructor
  · exact_mod_cast h.1
  · exact_mod_cast h.2

theorem roundTo_zero (d : ℕ) : roundTo (0 : α) d = 0 := by
  unfold roundTo
  rw [zero_mul, show (0 : α) = ((0 : ℤ) : α) by norm_num, rhe_intCast]
  norm_num

end RoundCorollaries

section ComponentLemmas

theorem cast_clamp (x lo hi : ℚ) :
    ((clamp x lo hi : ℚ) : ℝ) = clamp (x : ℝ) (lo : ℝ) (hi : ℝ) := by
  unfold clamp
  push_cast
  rfl

theorem velocity_score_mem (a : ℚ) (m : Option ℚ) (p : Option ℚ) (now : ℚ)
    (lk vw : ℕ) (br : ℚ) :
    0 ≤ velocity_score a m p now lk vw br ∧ velocity_score a m p now lk vw br ≤ 1 := by
  cases m with
  | none => constructor <;> simp [velocity_score]
  | some m =>
    unfold velocity_score
    exact ⟨le_clamp, clamp_le (by norm_num)⟩

theorem risk_penalty_mem (pq : ℚ) (ab sl : Bool) :
    0 ≤ risk_penalty pq ab sl ∧ risk_penalty pq ab sl ≤ 1 := by
  unfold risk_penalty
  exact ⟨le_clamp, clamp_le (by norm_num)⟩

theorem median_eq_none_iff (xs : List ℚ) : median xs = none ↔ xs = [] := by
  unfold median
  split
  · rename_i h
    simp [h]
  · rename_i h
    constructor
    · intro hc
      dsimp only at hc
      revert hc
      split <;> simp
    · intro hc
      exact absurd hc h

theorem velocity_score_posted_none (a : ℚ) (m : Option ℚ) (now now' : ℚ)
    (lk vw : ℕ) (br : ℚ) :
    velocity_score a m none now lk vw br = velocity_score a m none now' lk vw br := by
  cases m <;> rfl

end ComponentLemmas

section FinalScoreLemmas

theorem final_score_mem (np : Option ℚ) (v : ℝ) (r : ℚ) (mn mx : ℚ)
    (hv0 : 0 ≤ v) (hv1 : v ≤ 1) (hr0 : 0 ≤ r) (hr1 : r ≤ 1) :
    (0 ≤ (final_score np v r mn mx).score ∧ (final_score np v r mn mx).score ≤ 100) ∧
    (0 ≤ (final_score np v r mn mx).profit_normalized ∧
      (final_score np v r mn mx).profit_normalized ≤ 1) ∧
    (0 ≤ (final_score np v r mn mx).velocity ∧ (final_score np v r mn mx).velocity ≤ 1) ∧
    (0 ≤ (final_score np v r mn mx).risk ∧ (final_score np v r mn mx).risk ≤ 1) := by
  have hscore : ∀ raw : ℝ,
      0 ≤ roundTo (clamp raw 0 1 * 100) 2 ∧ roundTo (clamp raw 0 1 * 100) 2 ≤ 100 := by
    intro raw
    have h1 : clamp raw 0 1 * 100 ≤ 100 := by
      have := clamp_le (x := raw) (show (0 : ℝ) ≤ 1 by norm_num)
      nlinarith
    exact roundTo_mem_0100 2 (mul_nonneg le_clamp (by norm_num)) h1
  cases np with
  | none =>
    simp only [final_score]
    refine ⟨hscore _, ?_, roundTo_mem_01 4 hv0 hv1, roundTo_mem_01 4 hr0 hr1⟩
    have := roundTo_mem_01 (α := ℚ) 4 (le_refl 0) (show (0 : ℚ) ≤ 1 by norm_num)
    exact this
  | some n =>
    simp only [final_score]
    refine ⟨hscore _, ?_, roundTo_mem_01 4 hv0 hv1, roundTo_mem_01 4 hr0 hr1⟩
    exact roundTo_mem_01 4 le_clamp (clamp_le (by norm_num))

end FinalScoreLemmas

/-- C2: for every Listing (any asking price, any or no market estimate, any
likes, views, brand popularity, photo quality or flags) and any current
instant, the final score lies in [0, 100] and each reported component
(velocity, risk, profit_normalized) lies in [0, 1]. -/
theorem score_and_components_bounded (l : Listing) (now : ℚ) :
    (0 ≤ (score_listing l now).score ∧ (score_listing l now).score ≤ 100) ∧
    (0 ≤ (score_listing l now).velocity ∧ (score_listing l now).velocity ≤ 1) ∧
    (0 ≤ (score_listing l now).risk ∧ (score_listing l now).risk ≤ 1) ∧
    (0 ≤ (score_listing l now).profit_normalized ∧
      (score_listing l now).profit_normalized ≤ 1) := by
  have hv := velocity_score_mem l.asking_price
    (match l.market_price_est with
     | some m => some m
     | none => estimate_market_price l.historical_prices)
    l.posted_at now l.likes l.views l.brand_popularity
  have hr := risk_penalty_mem l.photo_quality l.ambiguous_brand l.suspect_low_price
  have h := final_score_mem
    (compute_net_profit l.asking_price
      (match l.market_price_est with
       | some m => some m
       | none => estimate_market_price l.historical_prices)
      VINTED_FEES_PCT AVG_SHIPPING_COST DEFAULT_REFURB_COST)
    (velocity_score l.asking_price
      (match l.market_price_est with
       | some m => some m
       | none => estimate_market_price l.historical_prices)
      l.posted_at now l.likes l.views l.brand_popularity)
    (risk_penalty l.photo_quality l.ambiguous_brand l.suspect_low_price)
    MIN_PROFIT_DESIRABLE MAX_PROFIT_CONSIDERED hv.1 hv.2 hr.1 hr.2
  simp only [score_listing]
  exact ⟨h.1, h.2.2.1, h.2.2.2, h.2.1⟩

/-- C3: the reported net profit is absent exactly when the market price
estimate is unavailable (no supplied estimate and empty historical prices),
and in that same case the velocity score — both the raw value and the
reported component — equals 0. -/
theorem net_profit_none_iff (l : Listing) (now : ℚ) :
    ((score_listing l now).net_profit = none ↔
      l.market_price_est = none ∧ l.historical_prices = []) ∧
    (l.market_price_est = none ∧ l.historical_prices = [] →
      (score_listing l now).velocity_raw = 0 ∧ (score_listing l now).velocity = 0) := by
  rcases hm : l.market_price_est with _ | m
  · rcases hh : median l.historical_prices with _ | q
    · have hnil : l.historical_prices = [] := (median_eq_none_iff _).mp hh
      simp only [score_listing, final_score, compute_net_profit, estimate_market_price, hm, hh]
      constructor
      · simp [hnil]
      · intro _
        constructor
        · simp [velocity_score]
        · simp [velocity_score, roundTo_zero]
    · have hne : l.historical_prices ≠ [] := by
        intro hnil
        rw [hnil] at hh
        simp [median] at hh
      simp only [score_listing, final_score, compute_net_profit, estimate_market_price, hm, hh]
      constructor
      · simp [hne]
      · intro hcon
        exact absurd hcon.2 hne
  · simp only [score_listing, final_score, compute_net_profit, hm]
    constructor
    · simp
    · intro hcon
      exact absurd hcon.1 (by simp)

/-- Witness for C3: a listing with no supplied estimate and no historical
prices has an absent net profit. -/
theorem net_profit_none_iff_witness :
    (score_listing { sampleListing with market_price_est := none } 0).net_profit = none :=
  (net_profit_none_iff { sampleListing with market_price_est := none } 0).1.mpr ⟨rfl, rfl⟩

/-- Counterexample for C4: with all three risk conditions met the penalty is
0.25 + 0.35 + 0.25 = 0.85, not 1.0 — the 1.0 cap never binds. -/
theorem risk_penalty_all_flags_ne_one :
    risk_penalty 0 true true = 0.85 ∧ (0.85 : ℚ) ≠ 1 := by
  constructor
  · norm_num [risk_penalty, clamp, min_def, max_def]
  · norm_num

/-- C4 (amended): the risk penalty is additive with increments +0.25 when
photo_quality < 0.5, +0.35 when ambiguous_brand, +0.25 when
suspect_low_price; it is monotone non-decreasing as each condition flips
from not-met to met, and its maximum value, attained when all three
conditions hold, is 0.85 (not 1.0: the increments sum to 0.85, so the 1.0
cap never binds). -/
theorem risk_penalty_additive_monotone_max :
    (∀ (pq : ℚ) (ab sl : Bool), risk_penalty pq ab sl =
      (if pq < 0.5 then (0.25 : ℚ) else 0) + (if ab then (0.35 : ℚ) else 0)
        + (if sl then (0.25 : ℚ) else 0)) ∧
    (∀ (pq : ℚ) (sl : Bool), risk_penalty pq false sl ≤ risk_penalty pq true sl) ∧
    (∀ (pq : ℚ) (ab : Bool), risk_penalty pq ab false ≤ risk_penalty pq ab true) ∧
    (∀ (pq pq' : ℚ) (ab sl : Bool), 0.5 ≤ pq → pq' < 0.5 →
      risk_penalty pq ab sl ≤ risk_penalty pq' ab sl) ∧
    (∀ (pq : ℚ) (ab sl : Bool), risk_penalty pq ab sl ≤ 0.85) ∧
    (∀ pq : ℚ, pq < 0.5 → risk_penalty pq true true = 0.85) := by
  refine ⟨?_, ?_, ?_, ?_, ?_, ?_⟩ <;> intros <;> unfold risk_penalty <;>
    split_ifs <;> first
      | contradiction
      | linarith
      | norm_num [clamp, min_def, max_def]

/-- Witness for C4 (amended): the maximum 0.85 is attained at photo quality
0 with both flags set. -/
theorem risk_penalty_additive_monotone_max_witness :
    risk_penalty 0 true true = 0.85 :=
  risk_penalty_additive_monotone_max.2.2.2.2.2 0 (by norm_num)

/-- C6: when no market estimate is supplied, the scored listing's estimate is
the median of the historical prices — middle element of the sorted list for
odd lengths, mean of the two central elements for even lengths, none for an
empty list — and with estimate m the net profit is
round((m − asking) − m·fees − shipping − refurb, 2) with the defaults
fees = 0.10, shipping = 5.0, refurb = 3.0. -/
theorem market_median_and_net_profit_formula :
    (median [] = none) ∧
    (∀ xs : List ℚ, xs ≠ [] → (xs.insertionSort (· ≤ ·)).length % 2 = 1 →
      median xs = some ((xs.insertionSort (· ≤ ·)).getD ((xs.insertionSort (· ≤ ·)).length / 2) 0)) ∧
    (∀ xs : List ℚ, xs ≠ [] → (xs.insertionSort (· ≤ ·)).length % 2 = 0 →
      median xs = some (((xs.insertionSort (· ≤ ·)).getD ((xs.insertionSort (· ≤ ·)).length / 2 - 1) 0
        + (xs.insertionSort (· ≤ ·)).getD ((xs.insertionSort (· ≤ ·)).length / 2) 0) / 2)) ∧
    (∀ (l : Listing) (now : ℚ), l.market_price_est = none →
      (score_listing l now).market_price_est = median l.historical_prices) ∧
    (∀ (l : Listing) (now : ℚ) (m : ℚ), l.market_price_est = some m →
      (score_listing l now).market_price_est = some m) ∧
    (∀ a m : ℚ, compute_net_profit a (some m) VINTED_FEES_PCT AVG_SHIPPING_COST DEFAULT_REFURB_COST
      = some (roundTo ((m - a) - m * 0.10 - 5.0 - 3.0) 2)) ∧
    (VINTED_FEES_PCT = 0.10 ∧ AVG_SHIPPING_COST = 5.0 ∧ DEFAULT_REFURB_COST = 3.0) := by
  refine ⟨rfl, ?_, ?_, ?_, ?_, ?_, rfl, rfl, rfl⟩
  · intro xs hne hodd
    unfold median
    rw [if_neg hne]
    dsimp only
    rw [if_pos hodd]
  · intro xs hne heven
    unfold median
    rw [if_neg hne]
    dsimp only
    rw [if_neg (by omega : ¬ (xs.insertionSort (· ≤ ·)).length % 2 = 1)]
  · intro l now hm
    simp only [score_listing, hm, estimate_market_price]
  · intro l now m hm
    simp only [score_listing, hm]
  · intro a m
    simp only [compute_net_profit, Option.some.injEq]
    norm_num [VINTED_FEES_PCT, AVG_SHIPPING_COST, DEFAULT_REFURB_COST]

/-- Witness for C6: the even case at [1, 3] — the median averages the two
central elements of the sorted list. -/
theorem market_median_witness :
    median [1, 3] = some (((([1, 3] : List ℚ).insertionSort (· ≤ ·)).getD
        ((([1, 3] : List ℚ).insertionSort (· ≤ ·)).length / 2 - 1) 0
      + (([1, 3] : List ℚ).insertionSort (· ≤ ·)).getD
        ((([1, 3] : List ℚ).insertionSort (· ≤ ·)).length / 2) 0) / 2) :=
  market_median_and_net_profit_formula.2.2.1 [1, 3] (by simp)
    (by simp [List.length_insertionSort])

/-- C7: with a (positive) market estimate, the velocity score equals
clamp(0.50·price_factor + 0.30·recency_factor + 0.15·social_factor +
0.05·brand_factor, 0, 1), where price_factor = clamp(1.5 − asking/market,
0, 1.5)/1.5, recency_factor decays linearly from 1 to 0 over one week
(168 hours) since the post instant and is 0 when the timestamp is absent or
unparsable, social_factor = clamp(ln(1 + likes + views/20)/5, 0, 1) and
brand_factor = clamp(brand_popularity, 0, 1); each sub-factor lies in
[0, 1].  The positivity hypothesis restricts to the domain where the spec's
price_ratio = asking/market is defined; the non-positive edge case is the
subject of `velocity_nonpositive_market`. -/
theorem velocity_formula (a m : ℚ) (p : Option ℚ) (now : ℚ) (lk vw : ℕ) (br : ℚ)
    (hm : 0 < m) :
    velocity_score a (some m) p now lk vw br
        = clamp (0.5 * price_factor_spec a m + 0.3 * recency_factor_spec p now
          + 0.15 * social_factor_spec lk vw + 0.05 * brand_factor_spec br) 0 1
      ∧ (0 ≤ price_factor_spec a m ∧ price_factor_spec a m ≤ 1)
      ∧ (0 ≤ recency_factor_spec p now ∧ recency_factor_spec p now ≤ 1)
      ∧ (0 ≤ social_factor_spec lk vw ∧ social_factor_spec lk vw ≤ 1)
      ∧ (0 ≤ brand_factor_spec br ∧ brand_factor_spec br ≤ 1) := by
  unfold price_factor_spec recency_factor_spec social_factor_spec brand_factor_spec
  refine ⟨?_, ⟨?_, ?_⟩, ?_, ⟨le_clamp, clamp_le (by norm_num)⟩,
    ⟨le_clamp, clamp_le (by norm_num)⟩⟩
  · unfold velocity_score
    dsimp only
    rw [if_pos hm]
    cases p with
    | none =>
      push_cast [cast_clamp]
      norm_num
    | some dt =>
      push_cast [cast_clamp]
      norm_num
  · exact div_nonneg le_clamp (by norm_num)
  · rw [div_le_one (by norm_num)]
    exact clamp_le (by norm_num)
  · cases p with
    | none => constructor <;> norm_num
    | some dt => exact ⟨le_clamp, clamp_le (by norm_num)⟩

/-- Witness for C7: asking 1 against market 1, no timestamp, no engagement,
brand popularity 0: price_factor is 1/3 and the velocity score is 1/6. -/
theorem velocity_formula_witness :
    velocity_score 1 (some 1) none 0 0 0 0 = 1 / 6 := by
  have h := (velocity_formula 1 1 none 0 0 0 0 (by norm_num)).1
  rw [h]
  norm_num [price_factor_spec, recency_factor_spec, social_factor_spec,
    brand_factor_spec, clamp, min_def, max_def, Real.log_one]

/-- C10: when the market estimate exists but is not positive, the velocity
score does not divide by it — the price ratio is taken to be 1, so the price
factor equals clamp(1.5 − 1, 0, 1.5)/1.5 = 1/3 and the velocity score is a
defined value in [0, 1]. -/
theorem velocity_nonpositive_market (a m : ℚ) (p : Option ℚ) (now : ℚ) (lk vw : ℕ) (br : ℚ)
    (hm : m ≤ 0) :
    clamp ((1.5 : ℝ) - 1) 0 1.5 / 1.5 = 1 / 3
      ∧ velocity_score a (some m) p now lk vw br
          = clamp (0.5 * (clamp ((1.5 : ℝ) - 1) 0 1.5 / 1.5) + 0.3 * recency_factor_spec p now
            + 0.15 * social_factor_spec lk vw + 0.05 * brand_factor_spec br) 0 1
      ∧ 0 ≤ velocity_score a (some m) p now lk vw br
      ∧ velocity_score a (some m) p now lk vw br ≤ 1 := by
  unfold recency_factor_spec social_factor_spec brand_factor_spec
  refine ⟨by norm_num [clamp, min_def, max_def], ?_,
    (velocity_score_mem a (some m) p now lk vw br).1,
    (velocity_score_mem a (some m) p now lk vw br).2⟩
  unfold velocity_score
  dsimp only
  rw [if_neg (not_lt.mpr hm)]
  cases p with
  | none =>
    push_cast [cast_clamp]
    norm_num
  | some dt =>
    push_cast [cast_clamp]
    norm_num

/-- Witness for C10: a zero market estimate still yields a defined velocity
score (1/6 here), with no division by zero. -/
theorem velocity_nonpositive_market_witness :
    velocity_score 1 (some 0) none 0 0 0 0 = 1 / 6 := by
  have h := (velocity_nonpositive_market 1 0 none 0 0 0 0 (by norm_num)).2.1
  rw [h]
  norm_num [recency_factor_spec, social_factor_spec, brand_factor_spec,
    clamp, min_def, max_def, Real.log_one]

/-- C8: the fetch result is the body text exactly on HTTP 200; every non-200
status and every transport (network/timeout) error yields the sentinel
`none`, and no outcome escapes this classification — the model is a total
function, so no raw exception propagates to the caller. -/
theorem fetch_failsoft :
    (∀ body, fetchResult (.response 200 body) = some body) ∧
    (∀ status body, status ≠ 200 → fetchResult (.response status body) = none) ∧
    (fetchResult .transportError = none) ∧
    (∀ o, fetchResult o = none ∨ ∃ body, o = .response 200 body ∧ fetchResult o = some body) := by
  refine ⟨fun body => rfl, ?_, rfl, ?_⟩
  · intro status body h
    simp [fetchResult, h]
  · intro o
    rcases o with ⟨status, body⟩ | _
    · by_cases h : status = 200
      · subst h
        exact Or.inr ⟨body, rfl, rfl⟩
      · exact Or.inl (by simp [fetchResult, h])
    · exact Or.inl rfl

/-- Witness for C8: an HTTP 404 yields the unavailable sentinel, not an
error. -/
theorem fetch_failsoft_witness :
    fetchResult (.response 404 "not found") = none :=
  fetch_failsoft.2.1 404 "not found" (by decide)

/-- C9: every state of the concurrency gate reachable from the idle pool by
acquire/release steps has at most `cap` fetches in flight; with the default
capacity 6 (any number of submitted URLs, in particular 20), never more than
6 requests are simultaneously outstanding. -/
theorem semaphore_bounds_inflight :
    ∀ (cap n : ℕ), SemReachable cap n → n ≤ cap := by
  intro cap n h
  induction h with
  | init => exact Nat.zero_le cap
  | step hr hs ih =>
    rcases hs with ⟨hlt, rfl⟩ | ⟨hpos, rfl⟩
    · exact hlt
    · exact le_trans (Nat.sub_le _ _) ih

/-- Witness for C9: after one acquire on a default-capacity gate, one fetch
is in flight and the bound 6 holds. -/
theorem semaphore_bounds_inflight_witness :
    1 ≤ DEFAULT_CONCURRENCY :=
  semaphore_bounds_inflight DEFAULT_CONCURRENCY 1
    (SemReachable.step SemReachable.init (Or.inl ⟨by norm_num [DEFAULT_CONCURRENCY], rfl⟩))

/-- Counterexample for C1: the same listing scored at two different instants
yields different results — the recency factor reads the wall clock, so the
score is not a function of the Listing fields alone.  At instant 0 the raw
velocity of `sampleListing` is 0.3; half a week (302400 s) later it is
0.15. -/
theorem score_depends_on_instant :
    ¬ score_listing sampleListing 0 = score_listing sampleListing 302400 := by
  intro h
  have hv := congrArg ScoreResult.velocity_raw h
  have h1 : (score_listing sampleListing 0).velocity_raw = 0.3 := by
    simp only [score_listing, sampleListing]
    unfold velocity_score
    dsimp only
    norm_num [clamp, min_def, max_def, Real.log_one]
  have h2 : (score_listing sampleListing 302400).velocity_raw = 0.15 := by
    simp only [score_listing, sampleListing]
    unfold velocity_score
    dsimp only
    norm_num [clamp, min_def, max_def, Real.log_one]
  rw [h1, h2] at hv
  norm_num at hv

/-- C1 (amended): scoring is a pure, deterministic function of the Listing
fields and the current wall-clock instant: identical Listing and identical
instant always yield an identical ScoreResult, with no other hidden state
and no history across calls; when the listing has no (parsable) posted_at
timestamp the result does not depend on the instant at all. -/
theorem score_deterministic_in_listing_and_instant :
    (∀ (l₁ l₂ : Listing) (now₁ now₂ : ℚ), l₁ = l₂ → now₁ = now₂ →
      score_listing l₁ now₁ = score_listing l₂ now₂) ∧
    (∀ (l : Listing) (now now' : ℚ), l.posted_at = none →
      score_listing l now = score_listing l now') := by
  constructor
  · rintro l₁ l₂ now₁ now₂ rfl rfl
    rfl
  · intro l now now' hp
    have hv := velocity_score_posted_none l.asking_price
      (match l.market_price_est with
       | some m => some m
       | none => estimate_market_price l.historical_prices)
      now now' l.likes l.views l.brand_popularity
    simp only [score_listing, hp, hv]

/-- Witness for C1 (amended): without a posted_at timestamp, scoring the same
listing at instants 5 and 99 gives identical results. -/
theorem score_deterministic_witness :
    score_listing { sampleListing with posted_at := none } 5
      = score_listing { sampleListing with posted_at := none } 99 :=
  score_deterministic_in_listing_and_instant.2 _ 5 99 rfl

theorem velocity_score_anti (a₁ a₂ : ℚ) (m : Option ℚ) (p : Option ℚ) (now : ℚ)
    (lk vw : ℕ) (br : ℚ) (h : a₁ ≤ a₂) :
    velocity_score a₂ m p now lk vw br ≤ velocity_score a₁ m p now lk vw br := by
  cases m with
  | none => exact le_rfl
  | some m =>
    unfold velocity_score
    dsimp only
    apply clamp_mono
    have hpf : clamp (1.5 - if 0 < m then a₂ / m else 1) 0 1.5 / 1.5
        ≤ clamp (1.5 - if 0 < m then a₁ / m else 1) 0 1.5 / 1.5 := by
      by_cases hm : 0 < m
      · rw [if_pos hm, if_pos hm]
        apply (div_le_div_iff_of_pos_right (by norm_num : (0:ℚ) < 1.5)).mpr
        apply clamp_mono
        have hr : a₁ / m ≤ a₂ / m := (div_le_div_iff_of_pos_right hm).mpr h
        linarith
      · rw [if_neg hm, if_neg hm]
    gcongr

theorem final_score_le_of (np₂ np₁ : ℚ) (v₂ v₁ : ℝ) (r mn mx : ℚ)
    (hmx : mn < mx) (hnp : np₂ ≤ np₁) (hv : v₂ ≤ v₁) :
    (final_score (some np₂) v₂ r mn mx).score ≤ (final_score (some np₁) v₁ r mn mx).score ∧
    (final_score (some np₂) v₂ r mn mx).profit_normalized
      ≤ (final_score (some np₁) v₁ r mn mx).profit_normalized ∧
    (final_score (some np₂) v₂ r mn mx).net_profit = some (roundTo np₂ 2) ∧
    (final_score (some np₁) v₁ r mn mx).net_profit = some (roundTo np₁ 2) := by
  have hd : (0:ℚ) < mx - mn := by linarith
  have hpn : clamp ((np₂ - mn) / (mx - mn)) 0 1 ≤ clamp ((np₁ - mn) / (mx - mn)) 0 1 :=
    clamp_mono _ _ ((div_le_div_iff_of_pos_right hd).mpr (by linarith))
  simp only [final_score]
  refine ⟨?_, roundTo_mono 4 hpn, by trivial, by trivial⟩
  apply roundTo_mono
  apply mul_le_mul_of_nonneg_right _ (by norm_num : (0:ℝ) ≤ 100)
  apply clamp_mono
  have h1 : ((clamp ((np₂ - mn) / (mx - mn)) 0 1 : ℚ) : ℝ)
      ≤ ((clamp ((np₁ - mn) / (mx - mn)) 0 1 : ℚ) : ℝ) := by exact_mod_cast hpn
  have hw1 : ((WEIGHT_PROFIT : ℚ) : ℝ) = 0.40 := by norm_num [WEIGHT_PROFIT]
  have hw2 : ((WEIGHT_VELOCITY : ℚ) : ℝ) = 0.55 := by norm_num [WEIGHT_VELOCITY]
  have hw3 : ((WEIGHT_RISK : ℚ) : ℝ) = 0.15 := by norm_num [WEIGHT_RISK]
  rw [hw1, hw2, hw3]
  have hgoal : (0.40:ℝ) * ((clamp ((np₂ - mn) / (mx - mn)) 0 1 : ℚ) : ℝ) + 0.55 * v₂
      ≤ 0.40 * ((clamp ((np₁ - mn) / (mx - mn)) 0 1 : ℚ) : ℝ) + 0.55 * v₁ := by
    nlinarith [h1, hv]
  linarith [hgoal]

theorem score_listing_anti_core (a₁ a₂ : ℚ) (M : Option ℚ) (p : Option ℚ) (now : ℚ)
    (lk vw : ℕ) (br pq : ℚ) (ab sl : Bool) (h : a₁ ≤ a₂) :
    let F := fun a => final_score
      (compute_net_profit a M VINTED_FEES_PCT AVG_SHIPPING_COST DEFAULT_REFURB_COST)
      (velocity_score a M p now lk vw br) (risk_penalty pq ab sl)
      MIN_PROFIT_DESIRABLE MAX_PROFIT_CONSIDERED
    (F a₂).score ≤ (F a₁).score ∧ (F a₂).profit_normalized ≤ (F a₁).profit_normalized ∧
    (∀ n₂, (F a₂).net_profit = some n₂ →
      ∃ n₁, (F a₁).net_profit = some n₁ ∧ n₂ ≤ n₁) := by
  dsimp only
  cases M with
  | none =>
    have hv : velocity_score a₂ none p now lk vw br = velocity_score a₁ none p now lk vw br := rfl
    simp only [compute_net_profit, hv]
    refine ⟨le_rfl, le_rfl, ?_⟩
    intro n₂ hn
    simp [final_score] at hn
  | some m =>
    have hnp : roundTo (m - a₂ - m * VINTED_FEES_PCT - AVG_SHIPPING_COST - DEFAULT_REFURB_COST) 2
        ≤ roundTo (m - a₁ - m * VINTED_FEES_PCT - AVG_SHIPPING_COST - DEFAULT_REFURB_COST) 2 :=
      roundTo_mono 2 (by linarith)
    have hv := velocity_score_anti a₁ a₂ (some m) p now lk vw br h
    have hc := final_score_le_of
      (roundTo (m - a₂ - m * VINTED_FEES_PCT - AVG_SHIPPING_COST - DEFAULT_REFURB_COST) 2)
      (roundTo (m - a₁ - m * VINTED_FEES_PCT - AVG_SHIPPING_COST - DEFAULT_REFURB_COST) 2)
      (velocity_score a₂ (some m) p now lk vw br)
      (velocity_score a₁ (some m) p now lk vw br)
      (risk_penalty pq ab sl) MIN_PROFIT_DESIRABLE MAX_PROFIT_CONSIDERED
      (by norm_num [MIN_PROFIT_DESIRABLE, MAX_PROFIT_CONSIDERED]) hnp hv
    simp only [compute_net_profit]
    refine ⟨hc.1, hc.2.1, ?_⟩
    intro n₂ hn
    rw [hc.2.2.1] at hn
    injection hn with hn2
    exact ⟨_, hc.2.2.2, hn2 ▸ roundTo_mono 2 hnp⟩

/-- C5: holding the market estimate (supplied or derived) and every other
Listing field fixed, a higher asking price never increases the net profit,
the normalized profit component, or the final score. -/
theorem score_antitone_in_asking_price (l : Listing) (a₁ a₂ now : ℚ) (h : a₁ ≤ a₂) :
    ((score_listing { l with asking_price := a₂ } now).score
      ≤ (score_listing { l with asking_price := a₁ } now).score) ∧
    ((score_listing { l with asking_price := a₂ } now).profit_normalized
      ≤ (score_listing { l with asking_price := a₁ } now).profit_normalized) ∧
    (∀ n₂, (score_listing { l with asking_price := a₂ } now).net_profit = some n₂ →
      ∃ n₁, (score_listing { l with asking_price := a₁ } now).net_profit = some n₁ ∧ n₂ ≤ n₁) := by
  have hcore := score_listing_anti_core a₁ a₂
    (match l.market_price_est with
     | some m => some m
     | none => estimate_market_price l.historical_prices)
    l.posted_at now l.likes l.views l.brand_popularity l.photo_quality
    l.ambiguous_brand l.suspect_low_price h
  dsimp only at hcore
  simp only [score_listing]
  exact hcore

/-- Witness for C5: raising the sample listing's asking price from 1 to 2
does not increase its score. -/
theorem score_antitone_witness :
    (score_listing { sampleListing with asking_price := 2 } 0).score
      ≤ (score_listing { sampleListing with asking_price := 1 } 0).score :=
  (score_antitone_in_asking_price sampleListing 1 2 0 (by norm_num)).1

end VintedBot
